import Mathlib

set_option autoImplicit false

/-!
Shallow embedding of the batch extraction pipeline of `src/t2.py`
(class `ExtractorWorker`), together with an exact rational model of the
IEEE-754 binary64 computation used for the progress percentage
`int(((i + 1) / total_files) * 100)`.
-/

/-! ## Python string primitives used by the pipeline -/

/-- The whitespace characters recognised by Python `str.strip()`. -/
def isPySpace (c : Char) : Bool :=
  c = ' ' || c = '\t' || c = '\n' || c = '\r' || c = Char.ofNat 11 || c = Char.ofNat 12

/-- Model of Python `str.strip()`: drop leading and trailing whitespace. -/
def pyStrip (s : String) : String :=
  String.mk (((s.data.dropWhile isPySpace).reverse.dropWhile isPySpace).reverse)

/-- Fuelled scanner for Python `str.replace`: every non-overlapping
occurrence of `pat` is replaced by `rep`, scanning left to right.  One
unit of fuel is spent per consumed character, so fuel equal to the
length of the input always suffices. -/
def replAux (pat rep : List Char) : Nat → List Char → List Char
  | 0, cs => cs
  | _ + 1, [] => []
  | f + 1, c :: cs =>
    if !pat.isEmpty && pat.isPrefixOf (c :: cs) then
      rep ++ replAux pat rep f (List.drop (pat.length - 1) cs)
    else
      c :: replAux pat rep f cs

/-- Model of Python `s.replace(pat, rep)` (for non-empty `pat`). -/
def pyReplace (s pat rep : String) : String :=
  String.mk (replAux pat.data rep.data s.data.length s.data)

/-- Line 76 of `t2.py`:
`response.text.strip().replace('```json', '').replace('```', '')`. -/
def stripFences (s : String) : String :=
  pyReplace (pyReplace (pyStrip s) "```json" "") "```" ""

/-- Model of `os.path.basename` on POSIX: the part after the last slash. -/
def basename (p : String) : String :=
  String.mk ((p.data.reverse.takeWhile (fun c => c ≠ '/')).reverse)

/-- Whether `pat` occurs as a contiguous substring. -/
def hasSub (pat : List Char) : List Char → Bool
  | [] => pat.isEmpty
  | c :: cs => pat.isPrefixOf (c :: cs) || hasSub pat cs

/-! ## Exact model of the binary64 progress computation

`(i + 1) / total_files` is CPython true division of two ints: the real
quotient correctly rounded to a binary64 (round to nearest, ties to
even).  Multiplying by `100` rounds again, and `int(_)` truncates toward
zero.  All values reached here are positive and far inside the normal
range, so the computation is modelled by correct rounding to a 53-bit
significand with unbounded exponent, done exactly on rationals. -/

/-- Fuelled floor of `log2`; fuel `n` suffices for input `n`. -/
def log2fuel : Nat → Nat → Nat
  | 0, _ => 0
  | f + 1, n => if 2 ≤ n then log2fuel f (n / 2) + 1 else 0

/-- `natLog2 n` is `⌊log2 n⌋` for `n ≥ 1`. -/
def natLog2 (n : Nat) : Nat := log2fuel n n

/-- Round the rational `a / b` to the nearest integer, ties to even. -/
def rnd2 (a b : Nat) : Nat :=
  if 2 * (a % b) < b then a / b
  else if b < 2 * (a % b) then a / b + 1
  else if a / b % 2 = 0 then a / b else a / b + 1

/-- `fexp a b` is `⌊log2 (a / b)⌋` (for `a, b ≥ 1`), computed by scaling
the numerator so the intermediate integer quotient is at least 1. -/
def fexp (a b : Nat) : Int :=
  (natLog2 (a * 2 ^ (natLog2 b + 1) / b) : Int) - (natLog2 b + 1)

/-- The 53-bit significand of the binary64 nearest to `a / b`: the value
`a / b` scaled into `[2^52, 2^53)` and rounded to the nearest integer,
ties to even.  The rounded double is `fmant a b * 2 ^ (fexp a b - 52)`. -/
def fmant (a b : Nat) : Nat :=
  if 52 ≤ fexp a b then rnd2 a (b * 2 ^ (fexp a b - 52).toNat)
  else rnd2 (a * 2 ^ (52 - fexp a b).toNat) b

/-- The rational value of the dyadic `m * 2 ^ e`. -/
def dval (m : Nat) (e : Int) : ℚ := (m : ℚ) * (2 : ℚ) ^ e

/-- Truncation toward zero of the (nonnegative) dyadic `m * 2 ^ e`. -/
def dtrunc (m : Nat) (e : Int) : Nat :=
  if 0 ≤ e then m * 2 ^ e.toNat else m / 2 ^ (-e).toNat

/-- Numerator of `m * 2 ^ e` written as a quotient of naturals. -/
def fnum (m : Nat) (e : Int) : Nat := if 0 ≤ e then m * 2 ^ e.toNat else m

/-- Denominator of `m * 2 ^ e` written as a quotient of naturals. -/
def fden (e : Int) : Nat := if 0 ≤ e then 1 else 2 ^ (-e).toNat

/-- Exact model of line 65/69/84 of `t2.py`:
`int(((i + 1) / total_files) * 100)` with `k = i + 1`, `N = total_files`.
The inner division is rounded to binary64, the product with `100` is
rounded to binary64 again, then truncated toward zero. -/
def pyProgress (k N : Nat) : Nat :=
  let m1 := fmant k N
  let e1 := fexp k N - 52
  let a2 := fnum (m1 * 100) e1
  let b2 := fden e1
  dtrunc (fmant a2 b2) (fexp a2 b2 - 52)

/-! ## Arithmetic facts about the rounding primitives -/

theorem log2fuel_spec : ∀ f n : Nat, 1 ≤ n → n ≤ f →
    2 ^ log2fuel f n ≤ n ∧ n < 2 ^ (log2fuel f n + 1) := by
  intro f
  induction f with
  | zero => intro n h1 h2; omega
  | succ f ih =>
    intro n h1 h2
    by_cases h : 2 ≤ n
    · have hrec : log2fuel (f + 1) n = log2fuel f (n / 2) + 1 := by
        simp [log2fuel, h]
      obtain ⟨l, u⟩ := ih (n / 2) (by omega) (by omega)
      rw [hrec]
      set P := 2 ^ log2fuel f (n / 2) with hP
      have e1 : 2 ^ (log2fuel f (n / 2) + 1) = 2 * P := by rw [pow_succ]; ring
      have e2 : 2 ^ (log2fuel f (n / 2) + 1 + 1) = 4 * P := by
        rw [pow_succ, pow_succ]; ring
      rw [e1, e2]
      rw [e1] at u
      omega
    · have hrec : log2fuel (f + 1) n = 0 := by simp [log2fuel, h]
      rw [hrec]; omega

theorem natLog2_spec (n : Nat) (h : 1 ≤ n) :
    2 ^ natLog2 n ≤ n ∧ n < 2 ^ (natLog2 n + 1) :=
  log2fuel_spec n n h le_rfl

theorem natLog2_eq_of {n j : Nat} (h1 : 2 ^ j ≤ n) (h2 : n < 2 ^ (j + 1)) :
    natLog2 n = j := by
  have hn : 1 ≤ n := le_trans (Nat.one_le_two_pow) h1
  obtain ⟨l, u⟩ := natLog2_spec n hn
  rcases Nat.lt_trichotomy (natLog2 n) j with hlt | heq | hgt
  · have : 2 ^ (natLog2 n + 1) ≤ 2 ^ j := Nat.pow_le_pow_right (by norm_num) (by omega)
    omega
  · exact heq
  · have : 2 ^ (j + 1) ≤ 2 ^ natLog2 n := Nat.pow_le_pow_right (by norm_num) (by omega)
    omega

theorem rnd2_upper (a b : Nat) (hb : 1 ≤ b) : 2 * rnd2 a b * b ≤ 2 * a + b := by
  unfold rnd2
  have hd : b * (a / b) + a % b = a := Nat.div_add_mod a b
  have hr : a % b < b := Nat.mod_lt a (by omega)
  set q := a / b with hq
  set r := a % b with hrdef
  have h2 : 2 * q * b = 2 * (b * q) := by ring
  have h3 : 2 * (q + 1) * b = 2 * (b * q) + 2 * b := by ring
  split_ifs with c1 c2 c3
  · rw [h2]; omega
  · rw [h3]; omega
  · rw [h2]; omega
  · rw [h3]; omega

theorem rnd2_lower (a b : Nat) (hb : 1 ≤ b) : 2 * a ≤ 2 * rnd2 a b * b + b := by
  unfold rnd2
  have hd : b * (a / b) + a % b = a := Nat.div_add_mod a b
  have hr : a % b < b := Nat.mod_lt a (by omega)
  set q := a / b with hq
  set r := a % b with hrdef
  have h2 : 2 * q * b = 2 * (b * q) := by ring
  have h3 : 2 * (q + 1) * b = 2 * (b * q) + 2 * b := by ring
  split_ifs with c1 c2 c3
  · rw [h2]; omega
  · rw [h3]; omega
  · rw [h2]; omega
  · rw [h3]; omega

theorem rnd2_upper_eq (a b : Nat) (hb : 1 ≤ b)
    (h : 2 * rnd2 a b * b = 2 * a + b) : rnd2 a b % 2 = 0 := by
  revert h
  unfold rnd2
  have hd : b * (a / b) + a % b = a := Nat.div_add_mod a b
  have hr : a % b < b := Nat.mod_lt a (by omega)
  set q := a / b with hq
  set r := a % b with hrdef
  have h2 : 2 * q * b = 2 * (b * q) := by ring
  have h3 : 2 * (q + 1) * b = 2 * (b * q) + 2 * b := by ring
  split_ifs with c1 c2 c3
  · rw [h2]; omega
  · rw [h3]; omega
  · rw [h2]; omega
  · rw [h3]; omega

theorem rnd2_lower_eq (a b : Nat) (hb : 1 ≤ b)
    (h : 2 * a = 2 * rnd2 a b * b + b) : rnd2 a b % 2 = 0 := by
  revert h
  unfold rnd2
  have hd : b * (a / b) + a % b = a := Nat.div_add_mod a b
  have hr : a % b < b := Nat.mod_lt a (by omega)
  set q := a / b with hq
  set r := a % b with hrdef
  have h2 : 2 * q * b = 2 * (b * q) := by ring
  have h3 : 2 * (q + 1) * b = 2 * (b * q) + 2 * b := by ring
  split_ifs with c1 c2 c3
  · rw [h2]; omega
  · rw [h3]; omega
  · rw [h2]; omega
  · rw [h3]; omega

/-- Round-to-nearest-even is monotone: if `a / b ≤ a' / b'` (cross
multiplied) then the rounded integers are ordered the same way. -/
theorem rnd2_mono (a b a' b' : Nat) (hb : 1 ≤ b) (hb' : 1 ≤ b')
    (h : a * b' ≤ a' * b) : rnd2 a b ≤ rnd2 a' b' := by
  by_contra hlt
  push_neg at hlt
  set u := rnd2 a b with hu
  set u' := rnd2 a' b' with hu'
  have h1 := rnd2_upper a b hb
  have h2 := rnd2_lower a' b' hb'
  -- chain the three inequalities, each multiplied through
  have c1 : 2 * u * b * b' ≤ (2 * a + b) * b' := Nat.mul_le_mul_right b' h1
  have c2 : (2 * a + b) * b' ≤ 2 * (a' * b) + b * b' := by
    have : 2 * (a * b') ≤ 2 * (a' * b) := by omega
    calc (2 * a + b) * b' = 2 * (a * b') + b * b' := by ring
      _ ≤ 2 * (a' * b) + b * b' := by omega
  have c3 : 2 * (a' * b) + b * b' ≤ (2 * u' * b' + b') * b + b * b' := by
    have : 2 * a' * b ≤ (2 * u' * b' + b') * b := Nat.mul_le_mul_right b h2
    calc 2 * (a' * b) + b * b' = 2 * a' * b + b * b' := by ring
      _ ≤ (2 * u' * b' + b') * b + b * b' := by omega
  have cEnd : (2 * u' * b' + b') * b + b * b' = (u' + 1) * (2 * (b * b')) := by ring
  have cStart : 2 * u * b * b' = u * (2 * (b * b')) := by ring
  have hchain : u * (2 * (b * b')) ≤ (u' + 1) * (2 * (b * b')) := by
    rw [← cStart, ← cEnd]; omega
  have hle : u ≤ u' + 1 :=
    Nat.le_of_mul_le_mul_right hchain (by positivity)
  have hueq : u = u' + 1 := by omega
  -- with u = u' + 1 the whole chain collapses to equalities
  have hend : (2 * u' * b' + b') * b + b * b' = 2 * u * b * b' := by
    rw [hueq]; ring
  have e1 : 2 * u * b * b' = (2 * a + b) * b' := by omega
  have e3 : 2 * (a' * b) + b * b' = (2 * u' * b' + b') * b + b * b' := by omega
  -- cancel b' in e1
  have e1' : b' * (2 * u * b) = b' * (2 * a + b) := by
    calc b' * (2 * u * b) = 2 * u * b * b' := by ring
      _ = (2 * a + b) * b' := e1
      _ = b' * (2 * a + b) := by ring
  have e1'' : 2 * u * b = 2 * a + b :=
    Nat.eq_of_mul_eq_mul_left (by omega) e1'
  have hueven : u % 2 = 0 := rnd2_upper_eq a b hb e1''
  -- cancel b in e3
  have e3' : b * (2 * a') = b * (2 * u' * b' + b') := by
    calc b * (2 * a') = 2 * (a' * b) := by ring
      _ = (2 * u' * b' + b') * b := by omega
      _ = b * (2 * u' * b' + b') := by ring
  have e3'' : 2 * a' = 2 * u' * b' + b' :=
    Nat.eq_of_mul_eq_mul_left (by omega) e3'
  have hu'even : u' % 2 = 0 := rnd2_lower_eq a' b' hb' e3''
  omega

/-- `fexp a b` decomposes as `j - L` with `2^j ≤ (a/b)·2^L < 2^(j+1)`. -/
theorem fexp_spec (a b : Nat) (ha : 1 ≤ a) (hb : 1 ≤ b) :
    ∃ j L : Nat, fexp a b = (j : Int) - (L : Int) ∧
      b * 2 ^ j ≤ a * 2 ^ L ∧ a * 2 ^ L < b * 2 ^ (j + 1) := by
  refine ⟨natLog2 (a * 2 ^ (natLog2 b + 1) / b), natLog2 b + 1, ?_, ?_, ?_⟩
  · simp only [fexp]; push_cast; ring
  · set L := natLog2 b + 1 with hL
    set X := a * 2 ^ L / b with hX
    have hbL : b < 2 ^ L := (natLog2_spec b hb).2
    have hbX : b ≤ a * 2 ^ L :=
      le_trans (le_of_lt hbL) (Nat.le_mul_of_pos_left _ (by omega))
    have hX1 : 1 ≤ X := (Nat.one_le_div_iff (by omega)).2 hbX
    have hXl : 2 ^ natLog2 X ≤ X := (natLog2_spec X hX1).1
    have hdm : b * X + a * 2 ^ L % b = a * 2 ^ L := Nat.div_add_mod (a * 2 ^ L) b
    calc b * 2 ^ natLog2 X ≤ b * X := Nat.mul_le_mul_left b hXl
      _ ≤ a * 2 ^ L := by omega
  · set L := natLog2 b + 1 with hL
    set X := a * 2 ^ L / b with hX
    have hbL : b < 2 ^ L := (natLog2_spec b hb).2
    have hbX : b ≤ a * 2 ^ L :=
      le_trans (le_of_lt hbL) (Nat.le_mul_of_pos_left _ (by omega))
    have hX1 : 1 ≤ X := (Nat.one_le_div_iff (by omega)).2 hbX
    have hXu : X < 2 ^ (natLog2 X + 1) := (natLog2_spec X hX1).2
    have hdm : b * X + a * 2 ^ L % b = a * 2 ^ L := Nat.div_add_mod (a * 2 ^ L) b
    have hmod : a * 2 ^ L % b < b := Nat.mod_lt _ (by omega)
    have h3 : b * (X + 1) ≤ b * 2 ^ (natLog2 X + 1) := Nat.mul_le_mul_left b hXu
    have h4 : b * (X + 1) = b * X + b := by ring
    omega

/-- The scaled numerator/denominator pair used by `fmant` places the
value `a / b` in the binade `[2^52, 2^53)`. -/
theorem fexp_scale (a b : Nat) (ha : 1 ≤ a) (hb : 1 ≤ b) :
    (52 ≤ fexp a b →
      2 ^ 52 * (b * 2 ^ (fexp a b - 52).toNat) ≤ a ∧
      a < 2 ^ 53 * (b * 2 ^ (fexp a b - 52).toNat)) ∧
    (¬ 52 ≤ fexp a b →
      2 ^ 52 * b ≤ a * 2 ^ (52 - fexp a b).toNat ∧
      a * 2 ^ (52 - fexp a b).toNat < 2 ^ 53 * b) := by
  obtain ⟨j, L, he, hl, hu⟩ := fexp_spec a b ha hb
  constructor
  · intro hc
    set u := (fexp a b - 52).toNat with hudef
    have hu0 : ((u : Nat) : Int) = fexp a b - 52 :=
      Int.toNat_of_nonneg (by omega)
    have hj : j = u + 52 + L := by omega
    constructor
    · have h1 : b * 2 ^ j = 2 ^ 52 * (b * 2 ^ u) * 2 ^ L := by
        rw [hj]; ring
      have h2 : 2 ^ 52 * (b * 2 ^ u) * 2 ^ L ≤ a * 2 ^ L := by rw [← h1]; exact hl
      exact Nat.le_of_mul_le_mul_right h2 (by positivity)
    · have h1 : b * 2 ^ (j + 1) = 2 ^ 53 * (b * 2 ^ u) * 2 ^ L := by
        rw [hj]; ring
      have h2 : a * 2 ^ L < 2 ^ 53 * (b * 2 ^ u) * 2 ^ L := by rw [← h1]; exact hu
      exact Nat.lt_of_mul_lt_mul_right h2
  · intro hc
    set s := (52 - fexp a b).toNat with hsdef
    have hs0 : ((s : Nat) : Int) = 52 - fexp a b :=
      Int.toNat_of_nonneg (by omega)
    have hj : s + j = 52 + L := by omega
    constructor
    · have h1 : b * 2 ^ j * 2 ^ s ≤ a * 2 ^ L * 2 ^ s := Nat.mul_le_mul_right _ hl
      have h2 : b * 2 ^ j * 2 ^ s = 2 ^ 52 * b * 2 ^ L := by
        have : 2 ^ j * 2 ^ s = 2 ^ 52 * 2 ^ L := by
          rw [← pow_add, ← pow_add]; rw [Nat.add_comm j s, hj]
        calc b * 2 ^ j * 2 ^ s = b * (2 ^ j * 2 ^ s) := by ring
          _ = b * (2 ^ 52 * 2 ^ L) := by rw [this]
          _ = 2 ^ 52 * b * 2 ^ L := by ring
      have h3 : a * 2 ^ L * 2 ^ s = a * 2 ^ s * 2 ^ L := by ring
      rw [h2, h3] at h1
      exact Nat.le_of_mul_le_mul_right h1 (by positivity)
    · have h1 : a * 2 ^ L * 2 ^ s < b * 2 ^ (j + 1) * 2 ^ s :=
        (Nat.mul_lt_mul_right (Nat.two_pow_pos s)).2 hu
      have h2 : b * 2 ^ (j + 1) * 2 ^ s = 2 ^ 53 * b * 2 ^ L := by
        have : 2 ^ (j + 1) * 2 ^ s = 2 ^ 53 * 2 ^ L := by
          rw [← pow_add, ← pow_add]
          congr 1
          omega
        calc b * 2 ^ (j + 1) * 2 ^ s = b * (2 ^ (j + 1) * 2 ^ s) := by ring
          _ = b * (2 ^ 53 * 2 ^ L) := by rw [this]
          _ = 2 ^ 53 * b * 2 ^ L := by ring
      have h3 : a * 2 ^ L * 2 ^ s = a * 2 ^ s * 2 ^ L := by ring
      rw [h2, h3] at h1
      exact Nat.lt_of_mul_lt_mul_right h1

theorem rnd2_ge (A B : Nat) (hB : 1 ≤ B) (h : 2 ^ 52 * B ≤ A) :
    2 ^ 52 ≤ rnd2 A B := by
  have hl := rnd2_lower A B hB
  set m := rnd2 A B with hm
  have h1 : 2 ^ 53 * B ≤ (2 * m + 1) * B := by
    calc 2 ^ 53 * B = 2 * (2 ^ 52 * B) := by ring
      _ ≤ 2 * A := by omega
      _ ≤ 2 * m * B + B := hl
      _ = (2 * m + 1) * B := by ring
  have h2 : 2 ^ 53 ≤ 2 * m + 1 := Nat.le_of_mul_le_mul_right h1 (by omega)
  omega

theorem rnd2_le (A B : Nat) (hB : 1 ≤ B) (h : A < 2 ^ 53 * B) :
    rnd2 A B ≤ 2 ^ 53 := by
  have hu := rnd2_upper A B hB
  set m := rnd2 A B with hm
  have h1 : 2 * m * B < (2 ^ 54 + 1) * B := by
    calc 2 * m * B ≤ 2 * A + B := hu
      _ < 2 * (2 ^ 53 * B) + B := by omega
      _ = (2 ^ 54 + 1) * B := by ring
  have h2 : 2 * m < 2 ^ 54 + 1 := Nat.lt_of_mul_lt_mul_right h1
  omega

theorem fmant_lb (a b : Nat) (ha : 1 ≤ a) (hb : 1 ≤ b) :
    2 ^ 52 ≤ fmant a b := by
  have hs := fexp_scale a b ha hb
  unfold fmant
  split_ifs with hc
  · exact rnd2_ge _ _ (Nat.mul_pos (by omega) (Nat.two_pow_pos _)) (hs.1 hc).1
  · exact rnd2_ge _ _ hb (hs.2 hc).1

theorem fmant_ub (a b : Nat) (ha : 1 ≤ a) (hb : 1 ≤ b) :
    fmant a b ≤ 2 ^ 53 := by
  have hs := fexp_scale a b ha hb
  unfold fmant
  split_ifs with hc
  · exact rnd2_le _ _ (Nat.mul_pos (by omega) (Nat.two_pow_pos _)) (hs.1 hc).2
  · exact rnd2_le _ _ hb (hs.2 hc).2

/-- `⌊log2⌋` is monotone along the ordering of the exact quotients. -/
theorem fexp_mono (a b a' b' : Nat) (ha : 1 ≤ a) (hb : 1 ≤ b)
    (ha' : 1 ≤ a') (hb' : 1 ≤ b') (h : a * b' ≤ a' * b) :
    fexp a b ≤ fexp a' b' := by
  obtain ⟨j, L, he, hl, hu⟩ := fexp_spec a b ha hb
  obtain ⟨j', L', he', hl', hu'⟩ := fexp_spec a' b' ha' hb'
  by_contra hcon
  push_neg at hcon
  have hJ : j' + 1 + L ≤ j + L' := by omega
  have c1 : b * b' * 2 ^ (j + L') ≤ a * b' * 2 ^ (L + L') := by
    have := Nat.mul_le_mul_right (b' * 2 ^ L') hl
    calc b * b' * 2 ^ (j + L') = b * 2 ^ j * (b' * 2 ^ L') := by ring
      _ ≤ a * 2 ^ L * (b' * 2 ^ L') := this
      _ = a * b' * 2 ^ (L + L') := by ring
  have c2 : a * b' * 2 ^ (L + L') ≤ a' * b * 2 ^ (L + L') :=
    Nat.mul_le_mul_right _ h
  have c3 : a' * b * 2 ^ (L + L') < b * b' * 2 ^ (j' + 1 + L) := by
    have := (Nat.mul_lt_mul_right (a := b * 2 ^ L) (by positivity)).2 hu'
    calc a' * b * 2 ^ (L + L') = a' * 2 ^ L' * (b * 2 ^ L) := by ring
      _ < b' * 2 ^ (j' + 1) * (b * 2 ^ L) := this
      _ = b * b' * 2 ^ (j' + 1 + L) := by ring
  have c4 : b * b' * 2 ^ (j' + 1 + L) ≤ b * b' * 2 ^ (j + L') :=
    Nat.mul_le_mul_left _ (Nat.pow_le_pow_right (by norm_num) hJ)
  omega

/-- The binary64 value of `a / b` after rounding. -/
def fval (a b : Nat) : ℚ := dval (fmant a b) (fexp a b - 52)

theorem fval_mono (a b a' b' : Nat) (ha : 1 ≤ a) (hb : 1 ≤ b)
    (ha' : 1 ≤ a') (hb' : 1 ≤ b') (h : a * b' ≤ a' * b) :
    fval a b ≤ fval a' b' := by
  have ht : fexp a b ≤ fexp a' b' := fexp_mono a b a' b' ha hb ha' hb' h
  rcases eq_or_lt_of_le ht with heq | hlt
  · -- same binade: the scaled operands compare directly
    have hm : fmant a b ≤ fmant a' b' := by
      unfold fmant
      rw [← heq]
      split_ifs with hc
      · refine rnd2_mono _ _ _ _ (Nat.mul_pos (by omega) (Nat.two_pow_pos _))
          (Nat.mul_pos (by omega) (Nat.two_pow_pos _)) ?_
        calc a * (b' * 2 ^ (fexp a b - 52).toNat)
            = a * b' * 2 ^ (fexp a b - 52).toNat := by ring
          _ ≤ a' * b * 2 ^ (fexp a b - 52).toNat := Nat.mul_le_mul_right _ h
          _ = a' * (b * 2 ^ (fexp a b - 52).toNat) := by ring
      · refine rnd2_mono _ _ _ _ hb hb' ?_
        calc a * 2 ^ (52 - fexp a b).toNat * b'
            = a * b' * 2 ^ (52 - fexp a b).toNat := by ring
          _ ≤ a' * b * 2 ^ (52 - fexp a b).toNat := Nat.mul_le_mul_right _ h
          _ = a' * 2 ^ (52 - fexp a b).toNat * b := by ring
    unfold fval dval
    rw [← heq]
    have : (fmant a b : ℚ) ≤ (fmant a' b' : ℚ) := by exact_mod_cast hm
    exact mul_le_mul_of_nonneg_right this (le_of_lt (zpow_pos (by norm_num) _))
  · -- strictly larger binade: go through the binade boundary
    have hub : fmant a b ≤ 2 ^ 53 := fmant_ub a b ha hb
    have hlb : 2 ^ 52 ≤ fmant a' b' := fmant_lb a' b' ha' hb'
    unfold fval dval
    have step1 : (fmant a b : ℚ) * (2:ℚ) ^ (fexp a b - 52) ≤
        (2:ℚ) ^ (fexp a b + 1) := by
      have hcast : (fmant a b : ℚ) ≤ (2:ℚ) ^ (53 : Nat) := by exact_mod_cast hub
      calc (fmant a b : ℚ) * (2:ℚ) ^ (fexp a b - 52)
          ≤ (2:ℚ) ^ (53 : Nat) * (2:ℚ) ^ (fexp a b - 52) :=
            mul_le_mul_of_nonneg_right hcast (le_of_lt (zpow_pos (by norm_num) _))
        _ = (2:ℚ) ^ ((53 : Int)) * (2:ℚ) ^ (fexp a b - 52) := by
            norm_num
        _ = (2:ℚ) ^ (fexp a b + 1) := by
            rw [← zpow_add₀ (by norm_num : (2:ℚ) ≠ 0)]
            congr 1
            ring
    have step2 : (2:ℚ) ^ (fexp a b + 1) ≤ (2:ℚ) ^ (fexp a' b') :=
      zpow_le_zpow_right₀ (by norm_num) (by omega)
    have step3 : (2:ℚ) ^ (fexp a' b') ≤
        (fmant a' b' : ℚ) * (2:ℚ) ^ (fexp a' b' - 52) := by
      have hcast : (2:ℚ) ^ (52 : Nat) ≤ (fmant a' b' : ℚ) := by exact_mod_cast hlb
      calc (2:ℚ) ^ (fexp a' b')
          = (2:ℚ) ^ ((52 : Int)) * (2:ℚ) ^ (fexp a' b' - 52) := by
            rw [← zpow_add₀ (by norm_num : (2:ℚ) ≠ 0)]
            congr 1
            ring
        _ = (2:ℚ) ^ (52 : Nat) * (2:ℚ) ^ (fexp a' b' - 52) := by norm_num
        _ ≤ (fmant a' b' : ℚ) * (2:ℚ) ^ (fexp a' b' - 52) :=
            mul_le_mul_of_nonneg_right hcast (le_of_lt (zpow_pos (by norm_num) _))
    linarith

theorem dtrunc_le (m : Nat) (e : Int) : (dtrunc m e : ℚ) ≤ dval m e := by
  unfold dtrunc dval
  split_ifs with hc
  · have hz : (2:ℚ) ^ e = (2:ℚ) ^ (e.toNat : Nat) := by
      rw [← zpow_natCast]
      congr 1
      omega
    rw [hz]
    push_cast
    exact le_refl _
  · set n := (-e).toNat with hn
    have hz : (2:ℚ) ^ e = ((2:ℚ) ^ (n : Nat))⁻¹ := by
      rw [← zpow_natCast (2:ℚ) n, ← zpow_neg]
      congr 1
      omega
    rw [hz]
    have h1 : m / 2 ^ n * 2 ^ n ≤ m := Nat.div_mul_le_self m (2 ^ n)
    have h2 : ((m / 2 ^ n : Nat) : ℚ) * 2 ^ n ≤ (m : ℚ) := by exact_mod_cast h1
    rw [← div_eq_mul_inv]
    rw [le_div_iff₀ (by positivity)]
    exact h2

theorem dval_lt (m : Nat) (e : Int) : dval m e < (dtrunc m e : ℚ) + 1 := by
  unfold dtrunc dval
  split_ifs with hc
  · have hz : (2:ℚ) ^ e = (2:ℚ) ^ (e.toNat : Nat) := by
      rw [← zpow_natCast]
      congr 1
      omega
    rw [hz]
    push_cast
    linarith
  · set n := (-e).toNat with hn
    have hz : (2:ℚ) ^ e = ((2:ℚ) ^ (n : Nat))⁻¹ := by
      rw [← zpow_natCast (2:ℚ) n, ← zpow_neg]
      congr 1
      omega
    rw [hz, ← div_eq_mul_inv]
    have hdm : 2 ^ n * (m / 2 ^ n) + m % 2 ^ n = m := Nat.div_add_mod m (2 ^ n)
    have hmod : m % 2 ^ n < 2 ^ n := Nat.mod_lt m (by positivity)
    have h1 : m < (m / 2 ^ n + 1) * 2 ^ n := by
      have : (m / 2 ^ n + 1) * 2 ^ n = 2 ^ n * (m / 2 ^ n) + 2 ^ n := by ring
      omega
    have h2 : (m : ℚ) < (((m / 2 ^ n : Nat) : ℚ) + 1) * 2 ^ n := by
      exact_mod_cast h1
    rw [div_lt_iff₀ (by positivity)]
    linarith

theorem dtrunc_mono (m : Nat) (e : Int) (m' : Nat) (e' : Int)
    (h : dval m e ≤ dval m' e') : dtrunc m e ≤ dtrunc m' e' := by
  have h1 := dtrunc_le m e
  have h2 := dval_lt m' e'
  have h3 : (dtrunc m e : ℚ) < (dtrunc m' e' : ℚ) + 1 := by linarith
  have h4 : dtrunc m e < dtrunc m' e' + 1 := by exact_mod_cast h3
  omega

theorem fden_pos (e : Int) : 1 ≤ fden e := by
  unfold fden
  split_ifs
  · omega
  · exact Nat.one_le_two_pow

theorem fnum_pos (M : Nat) (e : Int) (hM : 1 ≤ M) : 1 ≤ fnum M e := by
  unfold fnum
  split_ifs
  · exact Nat.mul_pos hM (Nat.two_pow_pos _)
  · exact hM

/-- The pair `(fnum M e, fden e)` represents the rational `M * 2 ^ e`. -/
theorem fnum_val (M : Nat) (e : Int) :
    ((fnum M e : Nat) : ℚ) = (M : ℚ) * (2:ℚ) ^ e * ((fden e : Nat) : ℚ) := by
  unfold fnum fden
  split_ifs with hc
  · have hz : (2:ℚ) ^ e = (2:ℚ) ^ (e.toNat : Nat) := by
      rw [← zpow_natCast]
      congr 1
      omega
    rw [hz]
    push_cast
    ring
  · set n := (-e).toNat with hn
    have hz : (2:ℚ) ^ e = ((2:ℚ) ^ (n : Nat))⁻¹ := by
      rw [← zpow_natCast (2:ℚ) n, ← zpow_neg]
      congr 1
      omega
    rw [hz]
    push_cast
    rw [mul_assoc, inv_mul_cancel₀ (by positivity)]
    ring

/-- Monotonicity of the full progress computation. -/
theorem pyProgress_mono (k k' N : Nat) (hk : 1 ≤ k) (hkk : k ≤ k') (hN : 1 ≤ N) :
    pyProgress k N ≤ pyProgress k' N := by
  have hk' : 1 ≤ k' := le_trans hk hkk
  have h1 : fval k N ≤ fval k' N :=
    fval_mono k N k' N hk hN hk' hN (Nat.mul_le_mul_right N hkk)
  show dtrunc (fmant (fnum (fmant k N * 100) (fexp k N - 52)) (fden (fexp k N - 52)))
      (fexp (fnum (fmant k N * 100) (fexp k N - 52)) (fden (fexp k N - 52)) - 52) ≤
    dtrunc (fmant (fnum (fmant k' N * 100) (fexp k' N - 52)) (fden (fexp k' N - 52)))
      (fexp (fnum (fmant k' N * 100) (fexp k' N - 52)) (fden (fexp k' N - 52)) - 52)
  set M := fmant k N * 100 with hM
  set M' := fmant k' N * 100 with hM'
  set e1 := fexp k N - 52 with he1
  set e1' := fexp k' N - 52 with he1'
  have hMpos : 1 ≤ M := by
    have := fmant_lb k N hk hN
    have h52 : (1:Nat) ≤ 2 ^ 52 := Nat.one_le_two_pow
    calc (1:Nat) ≤ 2 ^ 52 * 100 := by omega
      _ ≤ M := by rw [hM]; exact Nat.mul_le_mul_right 100 this
  have hM'pos : 1 ≤ M' := by
    have := fmant_lb k' N hk' hN
    have h52 : (1:Nat) ≤ 2 ^ 52 := Nat.one_le_two_pow
    calc (1:Nat) ≤ 2 ^ 52 * 100 := by omega
      _ ≤ M' := by rw [hM']; exact Nat.mul_le_mul_right 100 this
  have hA : 1 ≤ fnum M e1 := fnum_pos M e1 hMpos
  have hA' : 1 ≤ fnum M' e1' := fnum_pos M' e1' hM'pos
  have hB : 1 ≤ fden e1 := fden_pos e1
  have hB' : 1 ≤ fden e1' := fden_pos e1'
  -- the exact rationals represented by the two operand pairs are ordered
  have hvals : (M : ℚ) * (2:ℚ) ^ e1 ≤ (M' : ℚ) * (2:ℚ) ^ e1' := by
    have hv : dval (fmant k N) e1 ≤ dval (fmant k' N) e1' := h1
    unfold dval at hv
    have : (M : ℚ) = 100 * (fmant k N : ℚ) := by rw [hM]; push_cast; ring
    have h' : (M' : ℚ) = 100 * (fmant k' N : ℚ) := by rw [hM']; push_cast; ring
    rw [this, h']
    calc 100 * (fmant k N : ℚ) * (2:ℚ) ^ e1
        = 100 * ((fmant k N : ℚ) * (2:ℚ) ^ e1) := by ring
      _ ≤ 100 * ((fmant k' N : ℚ) * (2:ℚ) ^ e1') := by
          exact mul_le_mul_of_nonneg_left hv (by norm_num)
      _ = 100 * (fmant k' N : ℚ) * (2:ℚ) ^ e1' := by ring
  have hcross : fnum M e1 * fden e1' ≤ fnum M' e1' * fden e1 := by
    have hq : ((fnum M e1 : Nat) : ℚ) * ((fden e1' : Nat) : ℚ) ≤
        ((fnum M' e1' : Nat) : ℚ) * ((fden e1 : Nat) : ℚ) := by
      rw [fnum_val, fnum_val]
      have hBq : (0:ℚ) ≤ ((fden e1 : Nat) : ℚ) * ((fden e1' : Nat) : ℚ) := by positivity
      calc (M : ℚ) * (2:ℚ) ^ e1 * ((fden e1 : Nat) : ℚ) * ((fden e1' : Nat) : ℚ)
          = (M : ℚ) * (2:ℚ) ^ e1 * (((fden e1 : Nat) : ℚ) * ((fden e1' : Nat) : ℚ)) := by
            ring
        _ ≤ (M' : ℚ) * (2:ℚ) ^ e1' * (((fden e1 : Nat) : ℚ) * ((fden e1' : Nat) : ℚ)) :=
            mul_le_mul_of_nonneg_right hvals hBq
        _ = (M' : ℚ) * (2:ℚ) ^ e1' * ((fden e1' : Nat) : ℚ) * ((fden e1 : Nat) : ℚ) := by
            ring
    exact_mod_cast hq
  exact dtrunc_mono _ _ _ _
    (fval_mono (fnum M e1) (fden e1) (fnum M' e1') (fden e1') hA hB hA' hB' hcross)

theorem fexp_self (a : Nat) (ha : 1 ≤ a) : fexp a a = 0 := by
  unfold fexp
  rw [Nat.mul_div_cancel_left (2 ^ (natLog2 a + 1)) ha]
  have hpow : 2 ^ (natLog2 a + 1) < 2 ^ (natLog2 a + 1 + 1) := by
    have := pow_succ 2 (natLog2 a + 1)
    have h2 : (1:Nat) ≤ 2 ^ (natLog2 a + 1) := Nat.one_le_two_pow
    omega
  rw [natLog2_eq_of (le_refl _) hpow]
  push_cast
  ring

theorem fmant_self (a : Nat) (ha : 1 ≤ a) : fmant a a = 2 ^ 52 := by
  unfold fmant
  rw [fexp_self a ha]
  have hc : ¬ (52 ≤ (0:Int)) := by norm_num
  rw [if_neg hc]
  have ht : ((52 : Int) - 0).toNat = 52 := by decide
  rw [ht]
  unfold rnd2
  rw [Nat.mul_mod_right a (2 ^ 52), Nat.mul_div_cancel_left (2 ^ 52) ha]
  simp [ha]

theorem pyProgress_self (N : Nat) (hN : 1 ≤ N) : pyProgress N N = 100 := by
  show dtrunc (fmant (fnum (fmant N N * 100) (fexp N N - 52)) (fden (fexp N N - 52)))
      (fexp (fnum (fmant N N * 100) (fexp N N - 52)) (fden (fexp N N - 52)) - 52) = 100
  rw [fmant_self N hN, fexp_self N hN]
  decide

/-! ## The pipeline of `ExtractorWorker.run`

The worker's effects — progress bar updates, extracted rows, error
pop-ups, the network call to the model and the terminal `finished`
signal — are recorded as an event trace.  The two library boundaries
(`pdfplumber` text extraction and `model.generate_content`) and the
`json.loads` parser are inputs of the run, modelled as functions in an
environment; everything between them is translated from the source. -/

/-- A parsed JSON value as produced by `json.loads`. -/
inductive Json where
  | obj : List (String × Json) → Json
  | arr : List Json → Json
  | str : String → Json
  | num : Int → Json
  | bool : Bool → Json
  | null : Json

/-- Python `d[k] = v` on a dict: overwrite the entry in place if the key
is present, otherwise append it at the end. -/
def setKey (fs : List (String × Json)) (k : String) (v : Json) :
    List (String × Json) :=
  if fs.any (fun p => p.1 = k) then
    fs.map (fun p => if p.1 = k then (k, v) else p)
  else fs ++ [(k, v)]

/-- Lookup of a key in the parsed mapping (`data.get(col_name, ...)`). -/
def getKey (fs : List (String × Json)) (k : String) : Option Json :=
  (fs.find? (fun p => p.1 = k)).map (fun p => p.2)

/-- One observable effect of the worker. -/
inductive Event where
  | progress : Nat → Event
  | row : List (String × Json) → Event
  | error : String → Event
  | inferCall : String → Event
  | finished : Event

/-- Line 68 of `t2.py`. -/
def readErrMsg (p e : String) : String :=
  "Error reading " ++ basename p ++ ".\nError: " ++ e

/-- Line 64 of `t2.py`. -/
def noTextMsg (p : String) : String :=
  "Could not extract text from: " ++ basename p

/-- Line 81 of `t2.py`. -/
def processErrMsg (p e : String) : String :=
  "Failed to process " ++ basename p ++ " with Gemini.\nError: " ++ e

/-- Line 51 of `t2.py`. -/
def configFailMsg (e : String) : String :=
  "Failed to configure Gemini API. Check your API key.\nError: " ++ e

/-- The text of the `TypeError` raised by `x['FileName'] = v` when `x`
is not a dict. -/
def assignErrMsg : Json → String
  | Json.obj _ => ""
  | Json.arr _ => "list indices must be integers or slices, not str"
  | Json.str _ => "'str' object does not support item assignment"
  | Json.num _ => "'int' object does not support item assignment"
  | Json.bool _ => "'bool' object does not support item assignment"
  | Json.null => "'NoneType' object does not support item assignment"

/-- Line 78 of `t2.py`: `extracted_data['FileName'] = basename(path)` —
succeeds exactly when the parsed value is a dict. -/
def injectFileName (j : Json) (name : String) :
    Except String (List (String × Json)) :=
  match j with
  | Json.obj fs => Except.ok (setKey fs "FileName" (Json.str name))
  | j => Except.error (assignErrMsg j)

/-- The fixed prompt of `create_prompt` up to the interpolated text. -/
def promptHeader : String :=
  "\n        Analyze the following invoice text and extract the specified fields.\n        Respond ONLY with a single, clean JSON object. Do not add any explanatory text before or after the JSON.\n\n        The fields to extract are:\n        - \"VendorName\": The name of the company that sent the invoice.\n        - \"InvoiceNumber\": The unique identifier for the invoice.\n        - \"InvoiceDate\": The date the invoice was issued.\n        - \"Product\": A brief description of the product or service. If multiple, list the main one.\n        - \"SerialNumber\": The serial or product number, if available.\n        - \"GST\": The total Goods and Services Tax amount.\n        - \"CGST\": The Central GST amount, if specified separately.\n        - \"Total\": The final, total amount due on the invoice.\n\n        If a value is not found for any field, use \"N/A\" as the value.\n\n        Here is the invoice text:\n        ---\n        "

/-- The fixed prompt of `create_prompt` after the interpolated text. -/
def promptFooter : String := "\n        ---\n        "

/-- `create_prompt` (lines 88–110 of `t2.py`). -/
def createPrompt (text : String) : String :=
  promptHeader ++ text ++ promptFooter

/-- The pipeline's environment: the outcome of API configuration
(line 48–49), the PDF text extraction (lines 61–62), the inference call
(line 75) keyed by the prompt, and `json.loads` (line 77) keyed by the
fence-stripped response text. -/
structure Env where
  configResult : Option String
  read : String → Except String String
  infer : String → Except String String
  parse : String → Except String Json

/-- Events produced by one iteration of the per-document loop
(lines 59–84 of `t2.py`) for the document at index `i` of `total`. -/
def docEvents (env : Env) (total i : Nat) (p : String) : List Event :=
  match env.read p with
  | Except.error e =>
      [Event.error (readErrMsg p e), Event.progress (pyProgress (i + 1) total)]
  | Except.ok fullText =>
      if pyStrip fullText = "" then
        [Event.error (noTextMsg p), Event.progress (pyProgress (i + 1) total)]
      else
        Event.inferCall (createPrompt fullText) ::
          ((match env.infer (createPrompt fullText) with
            | Except.error e => [Event.error (processErrMsg p e)]
            | Except.ok resp =>
                match env.parse (stripFences resp) with
                | Except.error e => [Event.error (processErrMsg p e)]
                | Except.ok j =>
                    match injectFileName j (basename p) with
                    | Except.ok fs => [Event.row fs]
                    | Except.error e => [Event.error (processErrMsg p e)]) ++
            [Event.progress (pyProgress (i + 1) total)])

/-- The per-document loop (lines 54–85): `r i` is the value of the
cooperative flag `is_running` read at the top of iteration `i`. -/
def runAux (env : Env) (r : Nat → Bool) (total : Nat) :
    Nat → List String → List Event
  | _, [] => []
  | i, p :: ps =>
      if r i then docEvents env total i p ++ runAux env r total (i + 1) ps
      else []

/-- `ExtractorWorker.run` (lines 45–86): configuration failure returns
early after a single error signal; otherwise the loop runs and the
`finished` signal is emitted. -/
def run (env : Env) (r : Nat → Bool) (docs : List String) : List Event :=
  match env.configResult with
  | some e => [Event.error (configFailMsg e)]
  | none => runAux env r docs.length 0 docs ++ [Event.finished]

/-- The progress values of a trace, in order. -/
def progressValues (t : List Event) : List Nat :=
  t.filterMap (fun ev => match ev with
    | Event.progress n => some n
    | _ => none)

/-- The extracted rows of a trace, in order. -/
def rowValues (t : List Event) : List (List (String × Json)) :=
  t.filterMap (fun ev => match ev with
    | Event.row fs => some fs
    | _ => none)

/-- The prompts of the inference calls of a trace, in order. -/
def inferCalls (t : List Event) : List String :=
  t.filterMap (fun ev => match ev with
    | Event.inferCall s => some s
    | _ => none)

/-- The error messages of a trace, in order. -/
def errorMsgs (t : List Event) : List String :=
  t.filterMap (fun ev => match ev with
    | Event.error m => some m
    | _ => none)

/-! ## Trace lemmas -/

theorem progressValues_append (xs ys : List Event) :
    progressValues (xs ++ ys) = progressValues xs ++ progressValues ys :=
  List.filterMap_append xs ys _

theorem rowValues_append (xs ys : List Event) :
    rowValues (xs ++ ys) = rowValues xs ++ rowValues ys :=
  List.filterMap_append xs ys _

theorem inferCalls_append (xs ys : List Event) :
    inferCalls (xs ++ ys) = inferCalls xs ++ inferCalls ys :=
  List.filterMap_append xs ys _

theorem docEvents_read_error (env : Env) (total i : Nat) (p e : String)
    (h : env.read p = Except.error e) :
    docEvents env total i p =
      [Event.error (readErrMsg p e), Event.progress (pyProgress (i + 1) total)] := by
  simp [docEvents, h]

theorem docEvents_no_text (env : Env) (total i : Nat) (p t : String)
    (h : env.read p = Except.ok t) (h2 : pyStrip t = "") :
    docEvents env total i p =
      [Event.error (noTextMsg p), Event.progress (pyProgress (i + 1) total)] := by
  simp [docEvents, h, h2]

theorem docEvents_infer_error (env : Env) (total i : Nat) (p t e : String)
    (h : env.read p = Except.ok t) (h2 : pyStrip t ≠ "")
    (h3 : env.infer (createPrompt t) = Except.error e) :
    docEvents env total i p =
      [Event.inferCall (createPrompt t), Event.error (processErrMsg p e),
       Event.progress (pyProgress (i + 1) total)] := by
  simp [docEvents, h, h2, h3]

theorem docEvents_parse_error (env : Env) (total i : Nat) (p t resp e : String)
    (h : env.read p = Except.ok t) (h2 : pyStrip t ≠ "")
    (h3 : env.infer (createPrompt t) = Except.ok resp)
    (h4 : env.parse (stripFences resp) = Except.error e) :
    docEvents env total i p =
      [Event.inferCall (createPrompt t), Event.error (processErrMsg p e),
       Event.progress (pyProgress (i + 1) total)] := by
  simp [docEvents, h, h2, h3, h4]

theorem docEvents_success (env : Env) (total i : Nat) (p t resp : String)
    (fs : List (String × Json))
    (h : env.read p = Except.ok t) (h2 : pyStrip t ≠ "")
    (h3 : env.infer (createPrompt t) = Except.ok resp)
    (h4 : env.parse (stripFences resp) = Except.ok (Json.obj fs)) :
    docEvents env total i p =
      [Event.inferCall (createPrompt t),
       Event.row (setKey fs "FileName" (Json.str (basename p))),
       Event.progress (pyProgress (i + 1) total)] := by
  simp [docEvents, h, h2, h3, h4, injectFileName]

theorem injectFileName_not_obj (j : Json) (name : String)
    (h : ∀ fs, j ≠ Json.obj fs) :
    injectFileName j name = Except.error (assignErrMsg j) := by
  cases j with
  | obj fs => exact absurd rfl (h fs)
  | arr xs => rfl
  | str s => rfl
  | num n => rfl
  | bool b => rfl
  | null => rfl

theorem docEvents_not_obj (env : Env) (total i : Nat) (p t resp : String)
    (j : Json)
    (h : env.read p = Except.ok t) (h2 : pyStrip t ≠ "")
    (h3 : env.infer (createPrompt t) = Except.ok resp)
    (h4 : env.parse (stripFences resp) = Except.ok j)
    (h5 : ∀ fs, j ≠ Json.obj fs) :
    docEvents env total i p =
      [Event.inferCall (createPrompt t),
       Event.error (processErrMsg p (assignErrMsg j)),
       Event.progress (pyProgress (i + 1) total)] := by
  simp [docEvents, h, h2, h3, h4, injectFileName_not_obj j (basename p) h5]

/-- Every branch of one loop iteration ends with exactly one progress
update. -/
theorem progressValues_docEvents (env : Env) (total i : Nat) (p : String) :
    progressValues (docEvents env total i p) = [pyProgress (i + 1) total] := by
  unfold docEvents
  rcases h : env.read p with e | t
  · simp [progressValues]
  · dsimp only
    split_ifs with hstrip
    · simp [progressValues]
    · rcases h3 : env.infer (createPrompt t) with e | resp
      · simp [progressValues, h3]
      · rcases h4 : env.parse (stripFences resp) with e | j
        · simp [progressValues, h3, h4]
        · rcases h5 : injectFileName j (basename p) with e | fs
          · simp [progressValues, h3, h4, h5]
          · simp [progressValues, h3, h4, h5]

/-- One loop iteration emits at most one row, and any row it emits is
the parsed object with the document's basename injected as `FileName`. -/
theorem rowValues_docEvents (env : Env) (total i : Nat) (p : String) :
    rowValues (docEvents env total i p) = [] ∨
    ∃ fs0, rowValues (docEvents env total i p) =
      [setKey fs0 "FileName" (Json.str (basename p))] := by
  unfold docEvents
  rcases h : env.read p with e | t
  · left; simp [rowValues]
  · dsimp only
    split_ifs with hstrip
    · left; simp [rowValues]
    · rcases h3 : env.infer (createPrompt t) with e | resp
      · left; simp [rowValues, h3]
      · rcases h4 : env.parse (stripFences resp) with e | j
        · left; simp [rowValues, h3, h4]
        · cases j with
          | obj fs =>
            right
            exact ⟨fs, by simp [rowValues, h3, h4, injectFileName]⟩
          | arr xs => left; simp [rowValues, h3, h4, injectFileName]
          | str s => left; simp [rowValues, h3, h4, injectFileName]
          | num n => left; simp [rowValues, h3, h4, injectFileName]
          | bool b => left; simp [rowValues, h3, h4, injectFileName]
          | null => left; simp [rowValues, h3, h4, injectFileName]

theorem runAux_nil (env : Env) (r : Nat → Bool) (total i : Nat) :
    runAux env r total i [] = [] := rfl

theorem runAux_cons_true (env : Env) (r : Nat → Bool) (total i : Nat)
    (p : String) (ps : List String) (h : r i = true) :
    runAux env r total i (p :: ps) =
      docEvents env total i p ++ runAux env r total (i + 1) ps := by
  simp [runAux, h]

theorem runAux_cons_false (env : Env) (r : Nat → Bool) (total i : Nat)
    (p : String) (ps : List String) (h : r i = false) :
    runAux env r total i (p :: ps) = [] := by
  simp [runAux, h]

/-- With the flag never cleared, the loop is a concatenation of the
per-document traces. -/
theorem runAux_append (env : Env) (total : Nat) :
    ∀ (xs ys : List String) (i : Nat),
      runAux env (fun _ => true) total i (xs ++ ys) =
        runAux env (fun _ => true) total i xs ++
          runAux env (fun _ => true) total (i + xs.length) ys := by
  intro xs
  induction xs with
  | nil => intro ys i; simp [runAux]
  | cons p ps ih =>
    intro ys i
    rw [List.cons_append, runAux_cons_true _ _ _ _ _ _ rfl,
      runAux_cons_true _ _ _ _ _ _ rfl, ih ys (i + 1), List.append_assoc]
    have h : i + 1 + ps.length = i + (p :: ps).length := by
      simp only [List.length_cons]
      omega
    rw [h]

/-- With the flag never cleared, the progress trace is the full list of
per-document percentages, in order. -/
theorem progressValues_runAux (env : Env) (total : Nat) :
    ∀ (docs : List String) (i : Nat),
      progressValues (runAux env (fun _ => true) total i docs) =
        (List.range docs.length).map (fun t => pyProgress (i + t + 1) total) := by
  intro docs
  induction docs with
  | nil => intro i; simp [runAux, progressValues]
  | cons p ps ih =>
    intro i
    rw [runAux_cons_true _ _ _ _ _ _ rfl, progressValues_append,
      progressValues_docEvents, ih (i + 1)]
    rw [List.length_cons, List.range_succ_eq_map, List.map_cons, List.map_map,
      List.singleton_append]
    simp only [Nat.add_zero]
    congr 1
    apply List.map_congr_left
    intro t _
    simp only [Function.comp]
    congr 1
    omega

/-- Once the flag reads false at the top of iteration `K`, the run is
exactly the run of the first `K` documents with the flag held true. -/
theorem runAux_stop (env : Env) (r : Nat → Bool) (total K : Nat)
    (htrue : ∀ j, j < K → r j = true) (hfalse : r K = false) :
    ∀ (docs : List String) (i : Nat), i ≤ K →
      runAux env r total i docs =
        runAux env (fun _ => true) total i (docs.take (K - i)) := by
  intro docs
  induction docs with
  | nil => intro i _; simp [runAux]
  | cons p ps ih =>
    intro i hi
    by_cases hiK : i < K
    · have h1 : r i = true := htrue i hiK
      have h2 : K - i = (K - (i + 1)) + 1 := by omega
      rw [runAux_cons_true _ _ _ _ _ _ h1, h2, List.take_succ_cons,
        runAux_cons_true _ _ _ _ _ _ rfl, ih (i + 1) (by omega)]
    · have hieq : i = K := by omega
      have h2 : K - i = 0 := by omega
      rw [runAux_cons_false _ _ _ _ _ _ (hieq ▸ hfalse), h2, List.take_zero,
        runAux_nil]

/-! ## Key lookup in emitted records -/

theorem getKey_cons (a : String) (b : Json) (fs : List (String × Json))
    (k : String) :
    getKey ((a, b) :: fs) k = if a = k then some b else getKey fs k := by
  by_cases h : a = k
  · simp [getKey, List.find?, h]
  · simp [getKey, List.find?, h]

theorem getKey_append_last (k : String) (v : Json) :
    ∀ fs : List (String × Json), (∀ q ∈ fs, q.1 ≠ k) →
      getKey (fs ++ [(k, v)]) k = some v := by
  intro fs
  induction fs with
  | nil => intro _; simp [getKey, List.find?]
  | cons p ps ih =>
    intro h
    rcases p with ⟨a, b⟩
    have ha : a ≠ k := h (a, b) (List.mem_cons_self _ _)
    rw [List.cons_append, getKey_cons, if_neg ha]
    exact ih (fun q hq => h q (List.mem_cons_of_mem _ hq))

theorem getKey_map_set (k : String) (v : Json) :
    ∀ fs : List (String × Json), fs.any (fun q => q.1 = k) = true →
      getKey (fs.map (fun q => if q.1 = k then (k, v) else q)) k = some v := by
  intro fs
  induction fs with
  | nil => intro h; simp at h
  | cons p ps ih =>
    intro h
    rcases p with ⟨a, b⟩
    by_cases ha : a = k
    · have hh : (if (a, b).1 = k then (k, v) else (a, b)) = (k, v) := by
        simp [ha]
      rw [List.map_cons, hh, getKey_cons, if_pos rfl]
    · have hh : (if (a, b).1 = k then (k, v) else (a, b)) = (a, b) := by
        simp [ha]
      rw [List.map_cons, hh, getKey_cons, if_neg ha]
      apply ih
      simpa [ha] using h

/-- Injecting `FileName` always makes the key present with that value:
Python dict assignment overwrites an existing entry or appends a new
one, and lookup finds it either way. -/
theorem getKey_setKey (fs : List (String × Json)) (k : String) (v : Json) :
    getKey (setKey fs k v) k = some v := by
  unfold setKey
  split_ifs with h
  · exact getKey_map_set k v fs h
  · apply getKey_append_last
    intro q hq he
    apply h
    simp only [List.any_eq_true]
    exact ⟨q, hq, by simp [he]⟩

/-! ## Row bookkeeping -/

theorem rowValues_runAux_le (env : Env) (r : Nat → Bool) (total : Nat) :
    ∀ (docs : List String) (i : Nat),
      (rowValues (runAux env r total i docs)).length ≤ docs.length := by
  intro docs
  induction docs with
  | nil => intro i; simp [runAux, rowValues]
  | cons p ps ih =>
    intro i
    by_cases h : r i = true
    · rw [runAux_cons_true _ _ _ _ _ _ h, rowValues_append]
      rcases rowValues_docEvents env total i p with h0 | ⟨fs0, h0⟩
      · rw [h0, List.nil_append, List.length_cons]
        exact le_trans (ih (i + 1)) (Nat.le_succ _)
      · rw [h0, List.singleton_append, List.length_cons, List.length_cons]
        exact Nat.succ_le_succ (ih (i + 1))
    · rw [runAux_cons_false _ _ _ _ _ _ (by simpa using h)]
      simp [rowValues]

theorem rowValues_runAux_mem (env : Env) (r : Nat → Bool) (total : Nat) :
    ∀ (docs : List String) (i : Nat) (fs : List (String × Json)),
      fs ∈ rowValues (runAux env r total i docs) →
      ∃ p ∈ docs, ∃ fs0, fs = setKey fs0 "FileName" (Json.str (basename p)) := by
  intro docs
  induction docs with
  | nil => intro i fs h; simp [runAux, rowValues] at h
  | cons p ps ih =>
    intro i fs h
    by_cases hr : r i = true
    · rw [runAux_cons_true _ _ _ _ _ _ hr, rowValues_append] at h
      rcases List.mem_append.1 h with hl | hrr
      · rcases rowValues_docEvents env total i p with h0 | ⟨fs0, h0⟩
        · rw [h0] at hl; simp at hl
        · rw [h0] at hl
          have : fs = setKey fs0 "FileName" (Json.str (basename p)) := by
            simpa using hl
          exact ⟨p, List.mem_cons_self _ _, fs0, this⟩
      · obtain ⟨q, hq, fs0, hfs⟩ := ih (i + 1) fs hrr
        exact ⟨q, List.mem_cons_of_mem _ hq, fs0, hfs⟩
    · rw [runAux_cons_false _ _ _ _ _ _ (by simpa using hr)] at h
      simp [rowValues] at h

/-- Among documents with pairwise distinct basenames, each basename
identifies exactly one document. -/
theorem filter_basename_unique :
    ∀ docs : List String, (docs.map basename).Nodup →
      ∀ p ∈ docs, (docs.filter (fun d => basename d = basename p)).length = 1 := by
  intro docs
  induction docs with
  | nil => intro _ p hp; simp at hp
  | cons q qs ih =>
    intro hnd p hp
    rw [List.map_cons, List.nodup_cons] at hnd
    rcases List.mem_cons.1 hp with rfl | hp'
    · rw [List.filter_cons]
      have h0 : qs.filter (fun d => basename d = basename p) = [] := by
        rw [List.filter_eq_nil_iff]
        intro d hd
        simp only [decide_eq_true_eq]
        intro hbd
        exact hnd.1 (hbd ▸ List.mem_map_of_mem basename hd)
      simp [h0]
    · have hq : ¬ (basename q = basename p) := by
        intro he
        exact hnd.1 (he ▸ List.mem_map_of_mem basename hp')
      rw [List.filter_cons]
      simp [hq]
      exact ih hnd.2 p hp'

/-! ## The replace of the fence marker leaves no marker behind -/

theorem repl_prefix1 (c : Char) : ∀ (f : Nat) (cs : List Char),
    [c].isPrefixOf (replAux [c, c, c] [] f cs) = true →
    [c].isPrefixOf cs = true := by
  intro f
  induction f with
  | zero => intro cs h; exact h
  | succ f ih =>
    intro cs h
    match cs with
    | [] => simp only [replAux] at h; simp [List.isPrefixOf] at h
    | d :: cs' =>
      simp only [replAux] at h ⊢
      by_cases hm : [c, c, c].isPrefixOf (d :: cs') = true
      · have hd : c = d := by
          simp [List.isPrefixOf] at hm
          exact hm.1
        simp [List.isPrefixOf, hd]
      · rw [if_neg (by simp [hm])] at h
        have hd : c = d := by
          simp [List.isPrefixOf] at h
          exact h
        simp [List.isPrefixOf, hd]

theorem repl_prefix2 (c : Char) : ∀ (f : Nat) (cs : List Char),
    [c, c].isPrefixOf (replAux [c, c, c] [] f cs) = true →
    [c, c].isPrefixOf cs = true := by
  intro f
  induction f with
  | zero => intro cs h; exact h
  | succ f ih =>
    intro cs h
    match cs with
    | [] => simp only [replAux] at h; simp [List.isPrefixOf] at h
    | d :: cs' =>
      simp only [replAux] at h ⊢
      by_cases hm : [c, c, c].isPrefixOf (d :: cs') = true
      · simp [List.isPrefixOf] at hm ⊢
        refine ⟨hm.1, ?_⟩
        match cs', hm.2 with
        | e :: cs'', h2 => simp [List.isPrefixOf] at h2 ⊢; exact h2.1
      · rw [if_neg (by simp [hm])] at h
        simp only [List.isPrefixOf] at h ⊢
        simp only [Bool.and_eq_true] at h ⊢
        refine ⟨h.1, ?_⟩
        have := repl_prefix1 c f cs' (by
          simpa [List.isPrefixOf] using h.2)
        simpa [List.isPrefixOf] using this

/-- After replacing every occurrence of a three-character run with the
empty string, no occurrence of the run remains anywhere in the result. -/
theorem repl_no_run (c : Char) : ∀ (f : Nat) (cs : List Char),
    cs.length ≤ f →
    hasSub [c, c, c] (replAux [c, c, c] [] f cs) = false := by
  intro f
  induction f with
  | zero =>
    intro cs hlen
    have : cs = [] := List.length_eq_zero.1 (by omega)
    subst this
    simp [replAux, hasSub]
  | succ f ih =>
    intro cs hlen
    match cs with
    | [] => simp [replAux, hasSub]
    | d :: cs' =>
      simp only [replAux]
      by_cases hm : [c, c, c].isPrefixOf (d :: cs') = true
      · rw [if_pos (by simp [hm])]
        rw [List.nil_append]
        apply ih
        have h1 : (List.drop ([c, c, c].length - 1) cs').length ≤ cs'.length := by
          rw [List.length_drop]
          omega
        have h2 : cs'.length ≤ f := by
          simp only [List.length_cons] at hlen
          omega
        omega
      · rw [if_neg (by simp [hm])]
        have h2 : hasSub [c, c, c] (replAux [c, c, c] [] f cs') = false := by
          apply ih
          simp only [List.length_cons] at hlen
          omega
        simp only [hasSub, h2, Bool.or_false]
        by_contra hp
        rw [Bool.not_eq_false] at hp
        apply hm
        simp only [List.isPrefixOf, Bool.and_eq_true] at hp ⊢
        refine ⟨hp.1, ?_⟩
        exact repl_prefix2 c f cs' hp.2

/-- The progress trace of an uncancelled run with working configuration. -/
theorem progressValues_run (env : Env) (docs : List String)
    (hconf : env.configResult = none) :
    progressValues (run env (fun _ => true) docs) =
      (List.range docs.length).map (fun t => pyProgress (t + 1) docs.length) := by
  have hrun : run env (fun _ => true) docs =
      runAux env (fun _ => true) docs.length 0 docs ++ [Event.finished] := by
    simp [run, hconf]
  rw [hrun, progressValues_append, progressValues_runAux]
  have h0 : progressValues [Event.finished] = [] := rfl
  rw [h0, List.append_nil]
  apply List.map_congr_left
  intro t _
  congr 1
  omega

/-! ## Concrete environments used to instantiate the theorems -/

/-- Configuration succeeds, every PDF read raises. -/
def envReadFail : Env :=
  { configResult := none
    read := fun _ => Except.error "no such file"
    infer := fun _ => Except.error "network down"
    parse := fun _ => Except.error "Expecting value" }

/-- Configuration itself raises. -/
def envConfigFail : Env :=
  { configResult := some "invalid api key"
    read := fun _ => Except.ok "text"
    infer := fun _ => Except.ok "\x7b\x7d"
    parse := fun _ => Except.ok (Json.obj []) }

/-- Every stage succeeds and the model answers with an empty object. -/
def envOkAll : Env :=
  { configResult := none
    read := fun _ => Except.ok "invoice text"
    infer := fun _ => Except.ok "\x7b\x7d"
    parse := fun _ => Except.ok (Json.obj []) }

/-- Every stage succeeds but the model answers with a JSON array. -/
def envNonObj : Env :=
  { configResult := none
    read := fun _ => Except.ok "invoice text"
    infer := fun _ => Except.ok "[1]"
    parse := fun _ => Except.ok (Json.arr [Json.num 1]) }

/-! ## The claims -/

/-- C1: For every non-empty input list of `N` document paths, when the run
is not cancelled and API configuration succeeds, the pipeline emits exactly
`N` progress updates (one after each document, whether it succeeds or
fails), the emitted values are monotonically non-decreasing, and the final
value is 100. -/
theorem progress_contract (env : Env) (docs : List String)
    (hconf : env.configResult = none) (hne : docs ≠ []) :
    (progressValues (run env (fun _ => true) docs)).length = docs.length ∧
    List.Chain' (· ≤ ·) (progressValues (run env (fun _ => true) docs)) ∧
    (progressValues (run env (fun _ => true) docs)).getLast? = some 100 := by
  have hN : 0 < docs.length := List.length_pos.mpr hne
  have hp := progressValues_run env docs hconf
  refine ⟨?_, ?_, ?_⟩
  · rw [hp]; simp
  · rw [hp, List.chain'_iff_get]
    intro i hlen
    simp only [List.length_map, List.length_range] at hlen
    simp only [List.get_eq_getElem, List.getElem_map, List.getElem_range]
    exact pyProgress_mono (i + 1) (i + 1 + 1) docs.length (by omega) (by omega)
      (by omega)
  · obtain ⟨m, hm⟩ : ∃ m, docs.length = m + 1 :=
      ⟨docs.length - 1, by omega⟩
    rw [hp, hm, List.range_succ, List.map_append]
    have h1 : List.map (fun t => pyProgress (t + 1) (m + 1)) [m] =
        [pyProgress (m + 1) (m + 1)] := rfl
    rw [h1, List.getLast?_concat, pyProgress_self (m + 1) (by omega)]

/-- Instance of `progress_contract` on a one-document batch whose PDF read
fails. -/
theorem progress_contract_witness :
    envReadFail.configResult = none ∧ (["a.pdf"] : List String) ≠ [] ∧
    ((progressValues (run envReadFail (fun _ => true) ["a.pdf"])).length = 1 ∧
     List.Chain' (· ≤ ·)
       (progressValues (run envReadFail (fun _ => true) ["a.pdf"])) ∧
     (progressValues (run envReadFail (fun _ => true) ["a.pdf"])).getLast? =
       some 100) :=
  ⟨rfl, List.cons_ne_nil _ _,
    progress_contract envReadFail ["a.pdf"] rfl (List.cons_ne_nil _ _)⟩

/-- C5 (amended): the progress value emitted after processing document `i`
equals the binary64 evaluation of `((i + 1) / N) * 100` truncated toward
zero — the exact floor `⌊100 (i + 1) / N⌋` only up to double rounding. -/
theorem progress_equals_float_eval (env : Env) (docs : List String)
    (hconf : env.configResult = none) (i : Nat) (hi : i < docs.length) :
    (progressValues (run env (fun _ => true) docs))[i]? =
      some (pyProgress (i + 1) docs.length) := by
  rw [progressValues_run env docs hconf, List.getElem?_map,
    List.getElem?_range hi]
  rfl

/-- Instance of `progress_equals_float_eval` at the first of two failing
documents. -/
theorem progress_equals_float_eval_witness :
    envReadFail.configResult = none ∧ (0 < 2) ∧
    (progressValues (run envReadFail (fun _ => true) ["a.pdf", "b.pdf"]))[0]? =
      some (pyProgress 1 2) :=
  ⟨rfl, by omega,
    progress_equals_float_eval envReadFail ["a.pdf", "b.pdf"] rfl 0 (by decide)⟩

/-- C5 (counterexample): on a batch of 100 documents the progress emitted
after document index 28 is 28, while the exact percentage rounded down is
`⌊100·29/100⌋ = 29`: the code computes in binary64 floating point, where
`(29/100)*100` evaluates to `28.999999999999996`. -/
theorem progress_not_exact_floor :
    (progressValues (run envReadFail (fun _ => true)
        (List.replicate 100 "d.pdf")))[28]? = some 28 ∧
    100 * (28 + 1) / 100 = 29 := by
  constructor
  · have h := progress_equals_float_eval envReadFail (List.replicate 100 "d.pdf")
      rfl 28 (by decide)
    rw [h]
    congr 1
  · decide

/-- C7: a run whose API configuration fails emits exactly one blocking
error notification and nothing else: no document is processed, no progress
update, no row, no inference call. -/
theorem config_failure_blocks (env : Env) (e : String) (r : Nat → Bool)
    (docs : List String) (hconf : env.configResult = some e) :
    run env r docs = [Event.error (configFailMsg e)] ∧
    progressValues (run env r docs) = [] ∧
    rowValues (run env r docs) = [] ∧
    inferCalls (run env r docs) = [] := by
  have h : run env r docs = [Event.error (configFailMsg e)] := by
    simp [run, hconf]
  refine ⟨h, ?_, ?_, ?_⟩ <;> rw [h] <;> rfl

/-- Instance of `config_failure_blocks` on a two-document batch. -/
theorem config_failure_blocks_witness :
    envConfigFail.configResult = some "invalid api key" ∧
    (run envConfigFail (fun _ => true) ["a.pdf", "b.pdf"] =
      [Event.error (configFailMsg "invalid api key")] ∧
     progressValues (run envConfigFail (fun _ => true) ["a.pdf", "b.pdf"]) = [] ∧
     rowValues (run envConfigFail (fun _ => true) ["a.pdf", "b.pdf"]) = [] ∧
     inferCalls (run envConfigFail (fun _ => true) ["a.pdf", "b.pdf"]) = []) :=
  ⟨rfl, config_failure_blocks envConfigFail "invalid api key" (fun _ => true)
    ["a.pdf", "b.pdf"] rfl⟩

/-- C8: the cooperative flag is read only at the top of each per-document
iteration.  If it reads true for the first `K` iterations and false at
iteration `K`, the trace is exactly the full traces of the first `K`
documents — each started document finishes and its outcome and progress
update are emitted — followed directly by `finished`; no later document
contributes any event.  The flag's value while a document is in flight is
never consulted. -/
theorem cancellation_cooperative (env : Env) (r : Nat → Bool)
    (docs : List String) (K : Nat) (hconf : env.configResult = none)
    (htrue : ∀ j, j < K → r j = true) (hfalse : r K = false) :
    run env r docs =
      runAux env (fun _ => true) docs.length 0 (docs.take K) ++
        [Event.finished] := by
  simp only [run, hconf]
  rw [runAux_stop env r docs.length K htrue hfalse docs 0 (Nat.zero_le K),
    Nat.sub_zero]

/-- Instance of `cancellation_cooperative`: the flag clears after the first
document of a two-document batch; the first document's full trace and the
`finished` signal are still emitted, the second document contributes
nothing. -/
theorem cancellation_cooperative_witness :
    envOkAll.configResult = none ∧ (fun i => i == 0) 1 = false ∧
    run envOkAll (fun i => i == 0) ["x.pdf", "y.pdf"] =
      runAux envOkAll (fun _ => true) 2 0 ["x.pdf"] ++ [Event.finished] :=
  ⟨rfl, rfl, by
    have h := cancellation_cooperative envOkAll (fun i => i == 0)
      ["x.pdf", "y.pdf"] 1 rfl
      (fun j hj => by
        have hj0 : j = 0 := by omega
        subst hj0
        rfl)
      rfl
    exact h⟩

/-- C2: a document whose text extraction throws, or whose extracted text is
empty or whitespace-only, produces one `Failed` notification, no inference
(network) call and no row, and the loop advances directly to the next
document with no retry. -/
theorem extraction_failure_no_inference (env : Env) (total i : Nat)
    (p : String)
    (hfail : (∃ e, env.read p = Except.error e) ∨
             (∃ t, env.read p = Except.ok t ∧ pyStrip t = "")) :
    (errorMsgs (docEvents env total i p)).length = 1 ∧
    inferCalls (docEvents env total i p) = [] ∧
    rowValues (docEvents env total i p) = [] ∧
    ∀ (r : Nat → Bool) (ps : List String), r i = true →
      runAux env r total i (p :: ps) =
        docEvents env total i p ++ runAux env r total (i + 1) ps := by
  rcases hfail with ⟨e, he⟩ | ⟨t, ht, hs⟩
  · rw [docEvents_read_error env total i p e he]
    refine ⟨rfl, rfl, rfl, fun r ps hr => ?_⟩
    rw [runAux_cons_true env r total i p ps hr,
      docEvents_read_error env total i p e he]
  · rw [docEvents_no_text env total i p t ht hs]
    refine ⟨rfl, rfl, rfl, fun r ps hr => ?_⟩
    rw [runAux_cons_true env r total i p ps hr,
      docEvents_no_text env total i p t ht hs]

/-- Instance of `extraction_failure_no_inference` on a failing PDF read. -/
theorem extraction_failure_no_inference_witness :
    envReadFail.read "a.pdf" = Except.error "no such file" ∧
    ((errorMsgs (docEvents envReadFail 1 0 "a.pdf")).length = 1 ∧
     inferCalls (docEvents envReadFail 1 0 "a.pdf") = [] ∧
     rowValues (docEvents envReadFail 1 0 "a.pdf") = [] ∧
     ∀ (r : Nat → Bool) (ps : List String), r 0 = true →
       runAux envReadFail r 1 0 ("a.pdf" :: ps) =
         docEvents envReadFail 1 0 "a.pdf" ++ runAux envReadFail r 1 1 ps) :=
  ⟨rfl, extraction_failure_no_inference envReadFail 1 0 "a.pdf"
    (Or.inl ⟨"no such file", rfl⟩)⟩

/-- C3: a response that is not valid JSON after fence-stripping yields a
`Failed` notification naming the document, and the batch continues: the
whole run is the traces of the earlier documents, this document's three
events, the full traces of all later documents, then `finished`. -/
theorem parse_failure_continues (env : Env) (pre post : List String)
    (p t resp e : String) (hconf : env.configResult = none)
    (hread : env.read p = Except.ok t) (htext : pyStrip t ≠ "")
    (hinf : env.infer (createPrompt t) = Except.ok resp)
    (hparse : env.parse (stripFences resp) = Except.error e) :
    docEvents env (pre ++ p :: post).length pre.length p =
      [Event.inferCall (createPrompt t), Event.error (processErrMsg p e),
       Event.progress (pyProgress (pre.length + 1) (pre ++ p :: post).length)] ∧
    run env (fun _ => true) (pre ++ p :: post) =
      runAux env (fun _ => true) (pre ++ p :: post).length 0 pre ++
        (docEvents env (pre ++ p :: post).length pre.length p ++
          (runAux env (fun _ => true) (pre ++ p :: post).length
            (pre.length + 1) post ++ [Event.finished])) := by
  constructor
  · exact docEvents_parse_error env _ pre.length p t resp e hread htext hinf
      hparse
  · simp only [run, hconf]
    rw [runAux_append env (pre ++ p :: post).length pre (p :: post) 0]
    simp only [Nat.zero_add]
    rw [runAux_cons_true env _ _ _ _ _ rfl]
    simp only [List.append_assoc]

/-- Instance of `parse_failure_continues` with one document before and one
after the failing one. -/
def envParseFail : Env :=
  { configResult := none
    read := fun _ => Except.ok "invoice text"
    infer := fun _ => Except.ok "not json"
    parse := fun _ => Except.error "Expecting value: line 1 column 1" }

theorem parse_failure_continues_witness :
    envParseFail.parse (stripFences "not json") =
      Except.error "Expecting value: line 1 column 1" ∧
    (docEvents envParseFail 3 1 "b.pdf" =
      [Event.inferCall (createPrompt "invoice text"),
       Event.error (processErrMsg "b.pdf" "Expecting value: line 1 column 1"),
       Event.progress (pyProgress 2 3)] ∧
     run envParseFail (fun _ => true) ["a.pdf", "b.pdf", "c.pdf"] =
       runAux envParseFail (fun _ => true) 3 0 ["a.pdf"] ++
         (docEvents envParseFail 3 1 "b.pdf" ++
           (runAux envParseFail (fun _ => true) 3 2 ["c.pdf"] ++
             [Event.finished]))) :=
  ⟨rfl, parse_failure_continues envParseFail ["a.pdf"] ["c.pdf"] "b.pdf"
    "invoice text" "not json" "Expecting value: line 1 column 1" rfl rfl
    (by decide) rfl rfl⟩

/-- The rows of a configured run come from the loop alone. -/
theorem rowValues_run (env : Env) (r : Nat → Bool) (docs : List String)
    (hconf : env.configResult = none) :
    rowValues (run env r docs) =
      rowValues (runAux env r docs.length 0 docs) := by
  have h1 : run env r docs =
      runAux env r docs.length 0 docs ++ [Event.finished] := by
    simp [run, hconf]
  rw [h1, rowValues_append,
    show rowValues [Event.finished] = [] from rfl, List.append_nil]

/-- C4 (amended): the number of rows emitted is at most the number of input
documents; every emitted record's `FileName` equals the basename of at
least one input document (the one it was produced from); when the input
documents have pairwise distinct basenames it matches exactly one.  With
duplicate basenames the "exactly one" clause of the original claim fails
(see the counterexample). -/
theorem records_bounded_and_named (env : Env) (r : Nat → Bool)
    (docs : List String) :
    (rowValues (run env r docs)).length ≤ docs.length ∧
    (∀ fs ∈ rowValues (run env r docs), ∃ p ∈ docs,
        getKey fs "FileName" = some (Json.str (basename p))) ∧
    ((docs.map basename).Nodup →
      ∀ fs ∈ rowValues (run env r docs), ∃ name,
        getKey fs "FileName" = some (Json.str name) ∧
        (docs.filter (fun d => basename d = name)).length = 1) := by
  rcases hc : env.configResult with _ | e0
  · rw [rowValues_run env r docs hc]
    refine ⟨rowValues_runAux_le env r docs.length docs 0, ?_, ?_⟩
    · intro fs hfs
      obtain ⟨p, hp, fs0, rfl⟩ :=
        rowValues_runAux_mem env r docs.length docs 0 fs hfs
      exact ⟨p, hp, getKey_setKey fs0 "FileName" (Json.str (basename p))⟩
    · intro hnd fs hfs
      obtain ⟨p, hp, fs0, rfl⟩ :=
        rowValues_runAux_mem env r docs.length docs 0 fs hfs
      exact ⟨basename p, getKey_setKey fs0 "FileName" (Json.str (basename p)),
        filter_basename_unique docs hnd p hp⟩
  · have h : run env r docs = [Event.error (configFailMsg e0)] := by
      simp [run, hc]
    rw [h]
    refine ⟨by simp [rowValues], ?_, ?_⟩
    · intro fs hfs; simp [rowValues] at hfs
    · intro _ fs hfs; simp [rowValues] at hfs

/-- Instance of `records_bounded_and_named` on a successful two-document
batch with distinct basenames, the distinctness hypothesis discharged. -/
theorem records_bounded_and_named_witness :
    (["a.pdf", "b.pdf"].map basename).Nodup ∧
    (rowValues (run envOkAll (fun _ => true) ["a.pdf", "b.pdf"])).length ≤ 2 ∧
    (∀ fs ∈ rowValues (run envOkAll (fun _ => true) ["a.pdf", "b.pdf"]),
      ∃ p ∈ ["a.pdf", "b.pdf"],
        getKey fs "FileName" = some (Json.str (basename p))) ∧
    (∀ fs ∈ rowValues (run envOkAll (fun _ => true) ["a.pdf", "b.pdf"]),
      ∃ name, getKey fs "FileName" = some (Json.str name) ∧
        (["a.pdf", "b.pdf"].filter
          (fun d => basename d = name)).length = 1) :=
  ⟨by decide,
   (records_bounded_and_named envOkAll (fun _ => true) ["a.pdf", "b.pdf"]).1,
   (records_bounded_and_named envOkAll (fun _ => true) ["a.pdf", "b.pdf"]).2.1,
   (records_bounded_and_named envOkAll (fun _ => true) ["a.pdf", "b.pdf"]).2.2
     (by decide)⟩

/-- C4 (counterexample): with the two input documents `a/inv.pdf` and
`b/inv.pdf`, which share the basename `inv.pdf`, both succeeding, an
emitted record's `FileName` matches two input documents — not exactly
one. -/
theorem filename_match_not_unique :
    ∃ fs ∈ rowValues (run envOkAll (fun _ => true) ["a/inv.pdf", "b/inv.pdf"]),
      getKey fs "FileName" = some (Json.str "inv.pdf") ∧
      (["a/inv.pdf", "b/inv.pdf"].filter
        (fun d => basename d = "inv.pdf")).length = 2 := by
  refine ⟨[("FileName", Json.str "inv.pdf")], ?_, rfl, by decide⟩
  have h : rowValues (run envOkAll (fun _ => true) ["a/inv.pdf", "b/inv.pdf"]) =
      [[("FileName", Json.str "inv.pdf")], [("FileName", Json.str "inv.pdf")]] :=
    rfl
  rw [h]
  exact List.mem_cons_self _ _

/-- The response of the C6 scenario: one JSON object fenced in triple
backticks labeled `json`. -/
def fencedResp : String := "```json\n\x7b\"VendorName\":\"Acme\"\x7d\n```"

/-- What remains of `fencedResp` after the two replaces: the fence markers
are gone, only the object (with its surrounding newlines) is left. -/
def fencedBody : String := "\n\x7b\"VendorName\":\"Acme\"\x7d\n"

/-- C6: for a response consisting of a JSON object fenced in triple
backticks labeled `json`, stripping removes the fence markers, and the
document succeeds with a record whose `VendorName` is `Acme`. -/
theorem fenced_response_parsed (env : Env) (total i : Nat) (p t : String)
    (hread : env.read p = Except.ok t) (htext : pyStrip t ≠ "")
    (hinf : env.infer (createPrompt t) = Except.ok fencedResp)
    (hparse : env.parse fencedBody =
      Except.ok (Json.obj [("VendorName", Json.str "Acme")])) :
    stripFences fencedResp = fencedBody ∧
    docEvents env total i p =
      [Event.inferCall (createPrompt t),
       Event.row (setKey [("VendorName", Json.str "Acme")] "FileName"
         (Json.str (basename p))),
       Event.progress (pyProgress (i + 1) total)] ∧
    getKey (setKey [("VendorName", Json.str "Acme")] "FileName"
      (Json.str (basename p))) "VendorName" = some (Json.str "Acme") := by
  have hstrip : stripFences fencedResp = fencedBody := by decide
  refine ⟨hstrip, ?_, rfl⟩
  exact docEvents_success env total i p t fencedResp
    [("VendorName", Json.str "Acme")] hread htext hinf
    (by rw [hstrip]; exact hparse)

/-- The environment of the C6 instance. -/
def envFenced : Env :=
  { configResult := none
    read := fun _ => Except.ok "invoice text"
    infer := fun _ => Except.ok fencedResp
    parse := fun s =>
      if s = fencedBody then
        Except.ok (Json.obj [("VendorName", Json.str "Acme")])
      else Except.error "Expecting value" }

/-- Instance of `fenced_response_parsed`. -/
theorem fenced_response_parsed_witness :
    envFenced.infer (createPrompt "invoice text") = Except.ok fencedResp ∧
    (stripFences fencedResp = fencedBody ∧
     docEvents envFenced 1 0 "inv.pdf" =
       [Event.inferCall (createPrompt "invoice text"),
        Event.row (setKey [("VendorName", Json.str "Acme")] "FileName"
          (Json.str (basename "inv.pdf"))),
        Event.progress (pyProgress 1 1)] ∧
     getKey (setKey [("VendorName", Json.str "Acme")] "FileName"
       (Json.str (basename "inv.pdf"))) "VendorName" =
         some (Json.str "Acme")) :=
  ⟨rfl, fenced_response_parsed envFenced 1 0 "inv.pdf" "invoice text" rfl
    (by decide) rfl (by simp [envFenced])⟩

/-- C9: the two replaces delete every occurrence of the fence markers
anywhere in the response — after stripping, no text contains a triple
backtick — so a payload that itself contains triple backticks inside a
string value is altered before parsing: stripping the unfenced response
`{"note":"a` ``` `b"}` yields `{"note":"ab"}`, a different text than the
payload the model encoded. -/
theorem fences_stripped_globally :
    (∀ s : String, hasSub "```".data (stripFences s).data = false) ∧
    stripFences "\x7b\"note\":\"a```b\"\x7d" = "\x7b\"note\":\"ab\"\x7d" ∧
    ("\x7b\"note\":\"ab\"\x7d" : String) ≠ "\x7b\"note\":\"a```b\"\x7d" := by
  refine ⟨?_, by decide, by decide⟩
  intro s
  have hpat : "```".data = [Char.ofNat 96, Char.ofNat 96, Char.ofNat 96] := by
    decide
  show hasSub "```".data
    (replAux "```".data []
      (pyReplace (pyStrip s) "```json" "").data.length
      (pyReplace (pyStrip s) "```json" "").data) = false
  rw [hpat]
  exact repl_no_run (Char.ofNat 96) _ _ (le_refl _)

/-- C10: a response that parses as JSON but is not an object makes the
`FileName` assignment raise, so the document is reported `Failed`, not as a
row; consequently every emitted row is a mapping that contains a `FileName`
key. -/
theorem non_object_rejected (env : Env) :
    (∀ (total i : Nat) (p t resp : String) (j : Json),
      env.read p = Except.ok t → pyStrip t ≠ "" →
      env.infer (createPrompt t) = Except.ok resp →
      env.parse (stripFences resp) = Except.ok j →
      (∀ fs, j ≠ Json.obj fs) →
      docEvents env total i p =
        [Event.inferCall (createPrompt t),
         Event.error (processErrMsg p (assignErrMsg j)),
         Event.progress (pyProgress (i + 1) total)]) ∧
    (∀ (r : Nat → Bool) (docs : List String) (fs : List (String × Json)),
      fs ∈ rowValues (run env r docs) →
      ∃ name, getKey fs "FileName" = some (Json.str name)) := by
  constructor
  · intro total i p t resp j h1 h2 h3 h4 h5
    exact docEvents_not_obj env total i p t resp j h1 h2 h3 h4 h5
  · intro r docs fs hfs
    rcases hc : env.configResult with _ | e0
    · rw [rowValues_run env r docs hc] at hfs
      obtain ⟨p, hp, fs0, rfl⟩ :=
        rowValues_runAux_mem env r docs.length docs 0 fs hfs
      exact ⟨basename p, getKey_setKey fs0 "FileName" (Json.str (basename p))⟩
    · rw [show run env r docs = [Event.error (configFailMsg e0)] from by
        simp [run, hc]] at hfs
      simp [rowValues] at hfs

/-- Instance of `non_object_rejected`: a JSON array response is reported as
a failure, and a concrete emitted row carries its `FileName` key. -/
theorem non_object_rejected_witness :
    (docEvents envNonObj 1 0 "a.pdf" =
      [Event.inferCall (createPrompt "invoice text"),
       Event.error (processErrMsg "a.pdf" (assignErrMsg (Json.arr [Json.num 1]))),
       Event.progress (pyProgress 1 1)]) ∧
    (∃ name, getKey [("FileName", Json.str "x.pdf")] "FileName" =
      some (Json.str name)) := by
  constructor
  · exact (non_object_rejected envNonObj).1 1 0 "a.pdf" "invoice text" "[1]"
      (Json.arr [Json.num 1]) rfl (by decide) rfl rfl
      (fun fs h => Json.noConfusion h)
  · exact (non_object_rejected envOkAll).2 (fun _ => true) ["a/x.pdf"]
      [("FileName", Json.str "x.pdf")] (by
        have h : rowValues (run envOkAll (fun _ => true) ["a/x.pdf"]) =
            [[("FileName", Json.str "x.pdf")]] := rfl
        rw [h]
        exact List.mem_cons_self _ _)

